import Mathlib

/-!
# Verification of the PowerBI-SPC core against its specification

This file shallowly embeds the parts of the PowerBI-SPC repository that the
frozen claims are about, and settles each claim against the embedding:

* the inline-worker outlier rule `twoInThree`
  (src/Workers/CalculationWorkerManager.ts, generated worker script);
* the inline-worker limit calculator `iLimits` (same file) and the
  synchronous i-chart limit calculator (src/Limit Calculations/i.ts);
* the change-detection module (src/Functions/changeDetection.ts):
  `hashArray`, `createDataState`, `detectDataChanges`, `detectSettingsChanges`
  and `computeChangeFlags`;
* the orchestrator pieces of `viewModelClass`
  (src/Classes/viewModelClass.ts): `getGroupingIndexes` and the
  state-retention behaviour of `update` on input-validation failure.

JavaScript numbers are modelled by an idealized type `JSNum`: an exact
rational together with the three non-finite values `NaN`, `Infinity` and
`-Infinity`.  This keeps the zero-division, `isNaN` and mean-of-empty-array
behaviour of the source exact while replacing binary floating point by exact
rationals (rounding error is not at issue in any claim).  Rational
arithmetic is spelled out through `mkRat` so that every definition evaluates
inside the kernel; bridge lemmas identify these operations with the library
operations on `ℚ`.
-/

/-! ## Kernel-evaluable rational arithmetic -/

/-- Rational addition via `mkRat` (kernel-evaluable). -/
def qAdd (a b : ℚ) : ℚ := mkRat (a.num * b.den + b.num * a.den) (a.den * b.den)

/-- Rational subtraction via `mkRat` (kernel-evaluable). -/
def qSub (a b : ℚ) : ℚ := mkRat (a.num * b.den - b.num * a.den) (a.den * b.den)

/-- Rational multiplication via `mkRat` (kernel-evaluable). -/
def qMul (a b : ℚ) : ℚ := mkRat (a.num * b.num) (a.den * b.den)

/-- Rational division via `mkRat` (kernel-evaluable; division by `0`
yields `0`, callers guard the zero case separately). -/
def qDiv (a b : ℚ) : ℚ :=
  if 0 ≤ b.num then mkRat (a.num * b.den) (a.den * b.num.natAbs)
  else mkRat (-(a.num * b.den)) (a.den * b.num.natAbs)

/-- Rational negation via `mkRat` (kernel-evaluable). -/
def qNeg (a : ℚ) : ℚ := mkRat (-a.num) a.den

/-! ## The JavaScript number model -/

/-- Idealized JavaScript number: an exact rational, or one of the
non-finite values `NaN`, `Infinity`, `-Infinity`. -/
inductive JSNum where
  | fin : ℚ → JSNum
  | nan : JSNum
  | inf : JSNum
  | neginf : JSNum
deriving DecidableEq, Repr

namespace JSNum

/-- JavaScript addition (`+`) on `JSNum`. -/
def jsAdd : JSNum → JSNum → JSNum
  | nan, _ => nan
  | _, nan => nan
  | inf, neginf => nan
  | neginf, inf => nan
  | inf, _ => inf
  | _, inf => inf
  | neginf, _ => neginf
  | _, neginf => neginf
  | fin a, fin b => fin (qAdd a b)

/-- JavaScript subtraction (`-`) on `JSNum`. -/
def jsSub : JSNum → JSNum → JSNum
  | nan, _ => nan
  | _, nan => nan
  | inf, inf => nan
  | neginf, neginf => nan
  | inf, _ => inf
  | neginf, _ => neginf
  | fin _, inf => neginf
  | fin _, neginf => inf
  | fin a, fin b => fin (qSub a b)

/-- JavaScript multiplication (`*`) on `JSNum`. -/
def jsMul : JSNum → JSNum → JSNum
  | nan, _ => nan
  | _, nan => nan
  | inf, inf => inf
  | inf, neginf => neginf
  | neginf, inf => neginf
  | neginf, neginf => inf
  | inf, fin b => if 0 < b then inf else if b < 0 then neginf else nan
  | fin a, inf => if 0 < a then inf else if a < 0 then neginf else nan
  | neginf, fin b => if 0 < b then neginf else if b < 0 then inf else nan
  | fin a, neginf => if 0 < a then neginf else if a < 0 then inf else nan
  | fin a, fin b => fin (qMul a b)

/-- JavaScript division (`/`) on `JSNum` (division by zero yields a signed
infinity or `NaN`; `-0` is not modelled, so `x / 0` takes the sign of `x`). -/
def jsDiv : JSNum → JSNum → JSNum
  | nan, _ => nan
  | _, nan => nan
  | inf, inf => nan
  | inf, neginf => nan
  | neginf, inf => nan
  | neginf, neginf => nan
  | inf, fin b => if 0 ≤ b then inf else neginf
  | neginf, fin b => if 0 ≤ b then neginf else inf
  | fin _, inf => fin 0
  | fin _, neginf => fin 0
  | fin a, fin b =>
      if b = 0 then (if 0 < a then inf else if a < 0 then neginf else nan)
      else fin (qDiv a b)

/-- JavaScript strict comparison `a < b`: false whenever either side is
`NaN`. -/
def jsLtB : JSNum → JSNum → Bool
  | nan, _ => false
  | _, nan => false
  | neginf, neginf => false
  | neginf, _ => true
  | _, neginf => false
  | inf, _ => false
  | fin _, inf => true
  | fin a, fin b => decide (a < b)

/-- JavaScript `isNaN` on a `JSNum`. -/
def jsIsNaN : JSNum → Bool
  | nan => true
  | _ => false

/-- JavaScript truthiness of a number: `0` and `NaN` are falsy. -/
def jsTruthy : JSNum → Bool
  | fin q => decide (q ≠ 0)
  | nan => false
  | inf => true
  | neginf => true

/-- JavaScript `Math.abs` on a `JSNum`. -/
def jsAbs : JSNum → JSNum
  | fin q => if q < 0 then fin (qNeg q) else fin q
  | nan => nan
  | inf => inf
  | neginf => inf

end JSNum

open JSNum

/-- Sum of a list of JavaScript numbers, accumulated left to right from `0`
(the `sum += arr[i]` loops of the worker script and of `d3.sum`/`d3.mean`). -/
def jsSum (l : List JSNum) : JSNum := l.foldl jsAdd (fin 0)

/-- A key object with fields x, id and label, as carried through the
calculators. -/
structure KeyJS where
  x : ℚ
  id : ℚ
  label : String
deriving DecidableEq, Repr

/-!
## The inline-worker outlier rule `twoInThree`

Embedded from the worker script generated in
src/Workers/CalculationWorkerManager.ts (function `twoInThree(val, ll, ul,
highlightSeries)`).  An out-of-range JavaScript index read yields
`undefined`, and every comparison against `undefined` is false, exactly as a
comparison against `NaN`; list reads out of range therefore default to
`JSNum.nan`.
-/

/-- `lower_flag` of the worker `twoInThree`: 1 when the value crosses the
lower bound (`ll && ll[i] !== null && val[i] < ll[i]`). -/
def twoInThreeLowerFlag (val ll : List JSNum) (i : Nat) : Int :=
  if jsLtB (val.getD i .nan) (ll.getD i .nan) then 1 else 0

/-- `upper_flag` of the worker `twoInThree`: 1 when the value crosses the
upper bound (`ul && ul[i] !== null && val[i] > ul[i]`). -/
def twoInThreeUpperFlag (val ul : List JSNum) (i : Nat) : Int :=
  if jsLtB (ul.getD i .nan) (val.getD i .nan) then 1 else 0

/-- The running window sum the worker maintains with
`windowSum += flag[i]; if (i >= 3) windowSum -= flag[i - 3]`: the sum of the
flags over the window `[max 0 (i - 2), i]` of width at most 3. -/
def windowSum3 (flag : Nat → Int) (i : Nat) : Int :=
  ((List.range (i + 1)).drop (i - 2)).foldl (fun acc j => acc + flag j) 0

/-- The worker's backfill loop
(`for i: if (detected[i] !== "none") for (j = i-1; j >= i-2; j--) if (j >= 0)
detected[j] = detected[i]`), expressed with an explicit fuel counter equal to
the number of remaining loop iterations. -/
def backfillLoop : Nat → Nat → Array String → Array String
  | 0, _, arr => arr
  | fuel + 1, i, arr =>
      let v := arr.getD i "none"
      let arr1 :=
        if v ≠ "none" then
          let a1 := if 1 ≤ i then arr.setD (i - 1) v else arr
          if 2 ≤ i then a1.setD (i - 2) v else a1
        else arr
      backfillLoop fuel (i + 1) arr1

/-- The inline-worker `twoInThree(val, ll, ul, highlightSeries)` rule:
2 of the last 3 points beyond the 95% (2-sigma) bound on the same side,
with an optional backfill of the two preceding points. -/
def twoInThreeWorker (val ll ul : List JSNum) (highlightSeries : Bool) :
    List String :=
  let len := val.length
  if len = 0 then []
  else
    let lowerSum := fun i => windowSum3 (twoInThreeLowerFlag val ll) i
    let upperSum := fun i => windowSum3 (twoInThreeUpperFlag val ul) i
    let detected := (List.range len).map (fun i =>
      if 2 ≤ lowerSum i then "lower"
      else if 2 ≤ upperSum i then "upper"
      else "none")
    if highlightSeries then
      (backfillLoop len 0 detected.toArray).toList
    else
      detected

/-- The value series of the TwoInThree example in the specification:
`[10, 20, 90, 95, 15, 95, 95]`. -/
def c1Values : List JSNum :=
  [fin 10, fin 20, fin 90, fin 95, fin 15, fin 95, fin 95]

/-- A lower 2-sigma bound of 0 everywhere: no lower-bound crossings for the
example series. -/
def c1LowerBound : List JSNum := List.replicate 7 (fin 0)

/-- The upper 2-sigma bound of the example: 50 at every point. -/
def c1UpperBound : List JSNum := List.replicate 7 (fin 50)

/-!
## The inline-worker limit calculator `iLimits`

Embedded from the worker script generated in
src/Workers/CalculationWorkerManager.ts (functions `mean`, `divide`, `abs`,
`diff`, `rep`, `extractValues` and `iLimits`).
-/

/-- The worker's `mean`: `0` for a missing or empty array, otherwise the sum
divided by the length. -/
def workerMean (l : List JSNum) : JSNum :=
  if l = [] then fin 0 else jsDiv (jsSum l) (fin l.length)

/-- The worker's `divide(numerators, denominators)`: elementwise
`denominators && denominators[i] ? numerators[i] / denominators[i] :
numerators[i]` — a falsy denominator entry (0, `NaN`, out of range, or a
missing denominator array) yields the raw numerator. -/
def workerDivide (nums : List JSNum) (dens : Option (List JSNum)) :
    List JSNum :=
  (List.range nums.length).map (fun i =>
    match dens with
    | none => nums.getD i .nan
    | some d =>
        if jsTruthy (d.getD i .nan) then
          jsDiv (nums.getD i .nan) (d.getD i .nan)
        else nums.getD i .nan)

/-- The worker's `diff` (also Functions/diff used by i.ts): consecutive
differences `arr[i+1] - arr[i]`, empty for fewer than two elements. -/
def jsDiff : List JSNum → List JSNum
  | a :: b :: rest => (jsSub b a) :: jsDiff (b :: rest)
  | _ => []

/-- The worker's `extractValues(arr, indices)`: the elements whose index is
in `indices`, in order; a missing or empty index list returns the array
unchanged. -/
def extractValuesW (arr : List JSNum) (indices : Option (List Nat)) :
    List JSNum :=
  match indices with
  | none => arr
  | some idxs =>
      if idxs = [] then arr
      else ((arr.enum.filter (fun p => p.1 ∈ idxs)).map Prod.snd)

/-- Arguments of the worker `iLimits` (`controlLimitsArgs`). -/
structure WorkerLimitArgs where
  keys : List KeyJS
  numerators : List JSNum
  denominators : Option (List JSNum)
  outliers_in_limits : Bool
  subset_points : Option (List Nat)

/-- The transformed value series of the worker `iLimits`:
`useRatio ? divide(numerators, denominators) : numerators`. -/
def workerRatioOf (args : WorkerLimitArgs) : List JSNum :=
  let usesDenoms := match args.denominators with
    | none => false
    | some d => 0 < d.length
  if usesDenoms then workerDivide args.numerators args.denominators
  else args.numerators

/-- Result record of the worker `iLimits`. -/
structure WorkerLimitsResult where
  keys : List KeyJS
  values : List JSNum
  numerators : Option (List JSNum)
  denominators : Option (List JSNum)
  targets : List JSNum
  ll99 : List JSNum
  ll95 : List JSNum
  ll68 : List JSNum
  ul68 : List JSNum
  ul95 : List JSNum
  ul99 : List JSNum
deriving Repr

/-- The dispersion estimate `sigma` of the worker `iLimits`: the mean of the
(optionally screened) consecutive absolute differences of the subsetted
transformed series, divided by the SPC constant 1.128. -/
def workerSigma (args : WorkerLimitArgs) : JSNum :=
  let valsSubset := extractValuesW (workerRatioOf args) args.subset_points
  let consecDiff := (jsDiff valsSubset).map jsAbs
  let consecDiffUlim := jsMul (workerMean consecDiff) (fin (mkRat 3267 1000))
  let consecDiffValid :=
    if args.outliers_in_limits then consecDiff
    else consecDiff.filter (fun d => jsLtB d consecDiffUlim)
  jsDiv (workerMean consecDiffValid) (fin (mkRat 1128 1000))

/-- The inline-worker `iLimits` limit calculator (i chart). -/
def iLimitsWorker (args : WorkerLimitArgs) : WorkerLimitsResult :=
  let usesDenoms := match args.denominators with
    | none => false
    | some d => 0 < d.length
  let vals := workerRatioOf args
  let valsSubset := extractValuesW vals args.subset_points
  let cl := workerMean valsSubset
  let sigma := workerSigma args
  let n := args.keys.length
  { keys := args.keys
    values := vals.map (fun d => if jsIsNaN d then fin 0 else d)
    numerators := if usesDenoms then some args.numerators else none
    denominators := if usesDenoms then args.denominators else none
    targets := List.replicate n cl
    ll99 := List.replicate n (jsSub cl (jsMul (fin 3) sigma))
    ll95 := List.replicate n (jsSub cl (jsMul (fin 2) sigma))
    ll68 := List.replicate n (jsSub cl (jsMul (fin 1) sigma))
    ul68 := List.replicate n (jsAdd cl (jsMul (fin 1) sigma))
    ul95 := List.replicate n (jsAdd cl (jsMul (fin 2) sigma))
    ul99 := List.replicate n (jsAdd cl (jsMul (fin 3) sigma)) }

/-- Concrete worker `iLimits` input for C3: one point whose
numerator/denominator ratio is `Infinity / 1 = Infinity`. -/
def c3Args : WorkerLimitArgs :=
  { keys := [⟨0, 0, "p0"⟩]
    numerators := [JSNum.inf]
    denominators := some [fin 1]
    outliers_in_limits := false
    subset_points := none }

/-!
## The synchronous i-chart limit calculator

Embedded from src/Limit Calculations/i.ts.  `d3.mean` ignores `NaN` entries
and returns `undefined` when no valid value remains; subsequent JavaScript
arithmetic turns that `undefined` into `NaN`.  The helpers it uses that are
declared outside src (`divide` from Functions/BinaryFunctions, `diff`, `rep`
and `abs` from Functions) are modelled from the spec: `divide` is the
elementwise numerator/denominator ratio ("ratio of numerator/denominator",
"where a ratio divides by a zero or otherwise yields a non-finite result"),
`diff` the consecutive differences, `rep` constant replication and `abs` the
elementwise absolute value; `diff`, `rep` and `abs` coincide with the copies
inlined in the worker script under src.
-/

/-- `d3.mean`: the mean of the valid (non-`NaN`) entries, `undefined`
(`Option.none`) when no valid entry exists. -/
def d3Mean (l : List JSNum) : Option JSNum :=
  let valids := l.filter (fun x => !jsIsNaN x)
  if valids = [] then none
  else some (jsDiv (jsSum valids) (fin valids.length))

/-- JavaScript arithmetic on an `undefined` operand yields `NaN`: the
coercion applied to a `d3.mean` result before it is used in arithmetic. -/
def undefToNaN : Option JSNum → JSNum
  | none => .nan
  | some x => x

/-- Modelled from the spec: `divide` of Functions/BinaryFunctions (not under
src) is the elementwise numerator/denominator ratio with JavaScript division
semantics. -/
def divideSM (nums dens : List JSNum) : List JSNum :=
  (List.range nums.length).map (fun i =>
    jsDiv (nums.getD i .nan) (dens.getD i .nan))

/-- The `dataClass` fields consumed by `iLimits` of
src/Limit Calculations/i.ts. -/
structure DataClassI where
  keys : List KeyJS
  numerators : List JSNum
  denominators : Option (List JSNum)

/-- The transformed value series of i.ts:
`useRatio ? divide(numerators, denominators) : numerators`. -/
def iRatioOf (inputData : DataClassI) : List JSNum :=
  let usesDenoms := match inputData.denominators with
    | none => false
    | some d => 0 < d.length
  if usesDenoms then
    divideSM inputData.numerators (inputData.denominators.getD [])
  else inputData.numerators

/-- The dispersion estimate `sigma` of i.ts: mean consecutive absolute
difference, screened at 3.267 times its own mean unless
`outliers_in_limits` is set, scaled by the SPC constant 1.128. -/
def iSigma (inputData : DataClassI) (outliers_in_limits : Bool) : JSNum :=
  let consecDiff := (jsDiff (iRatioOf inputData)).map jsAbs
  let consecDiffUlim :=
    jsMul (undefToNaN (d3Mean consecDiff)) (fin (mkRat 3267 1000))
  let consecDiffValid :=
    if outliers_in_limits then consecDiff
    else consecDiff.filter (fun d => jsLtB d consecDiffUlim)
  jsDiv (undefToNaN (d3Mean consecDiffValid)) (fin (mkRat 1128 1000))

/-- Result record of i.ts (the `controlLimitsClass` fields it populates). -/
structure ILimitsResult where
  keys : List KeyJS
  values : List JSNum
  numerators : Option (List JSNum)
  denominators : Option (List JSNum)
  targets : List JSNum
  ll99 : List JSNum
  ll95 : List JSNum
  ul95 : List JSNum
  ul99 : List JSNum
deriving Repr

/-- The i-chart limit calculator of src/Limit Calculations/i.ts. -/
def iLimits (inputData : DataClassI) (outliers_in_limits : Bool) :
    ILimitsResult :=
  let usesDenoms := match inputData.denominators with
    | none => false
    | some d => 0 < d.length
  let vals := iRatioOf inputData
  let cl := undefToNaN (d3Mean vals)
  let sigma := iSigma inputData outliers_in_limits
  let n := inputData.keys.length
  { keys := inputData.keys
    values := vals.map (fun d => if jsIsNaN d then fin 0 else d)
    numerators := if usesDenoms then some inputData.numerators else none
    denominators := if usesDenoms then inputData.denominators else none
    targets := List.replicate n cl
    ll99 := List.replicate n (jsSub cl (jsMul (fin 3) sigma))
    ll95 := List.replicate n (jsSub cl (jsMul (fin 2) sigma))
    ul95 := List.replicate n (jsAdd cl (jsMul (fin 2) sigma))
    ul99 := List.replicate n (jsAdd cl (jsMul (fin 3) sigma)) }

/-- Concrete i.ts input for C2: two equal values, no denominators. -/
def c2Args : DataClassI :=
  { keys := [⟨0, 0, "p0"⟩, ⟨1, 1, "p1"⟩]
    numerators := [fin 5, fin 5]
    denominators := none }

/-!
## Change detection

Embedded from src/Functions/changeDetection.ts.  Maps (`Map`, `Set`) are
modelled as association lists and duplicate-free insertion-ordered lists.
-/

/-- The values `hashArray` canonicalizes: numbers, strings, and
`null`/`undefined` entries (both stringify to "null").  Object entries
(hashed through `JSON.stringify`) do not occur in the hashed data-state
arrays and are not modelled. -/
inductive HVal where
  | num : JSNum → HVal
  | str : String → HVal
  | null : HVal
deriving DecidableEq, Repr

/-- Integer floor of a non-negative rational (truncating integer
division of numerator by denominator). -/
def qFloorNonneg (q : ℚ) : Int := q.num / (q.den : Int)

/-- Decimal digit string of a natural number. -/
def natDecimalString (n : Nat) : String := String.mk (Nat.toDigits 10 n)

/-- Pad a string to width `w` with leading zeros. -/
def padLeftZeros (s : String) (w : Nat) : String :=
  if s.length < w then String.mk (List.replicate (w - s.length) '0') ++ s
  else s

/-- `toFixed(6)` of a non-negative rational: round half up at the sixth
decimal, then print integer part, '.', and exactly six fraction digits. -/
def toFixed6Abs (q : ℚ) : String :=
  let n := (qFloorNonneg (qAdd (qMul q (mkRat 1000000 1)) (mkRat 1 2))).toNat
  natDecimalString (n / 1000000) ++ "." ++
    padLeftZeros (natDecimalString (n % 1000000)) 6

/-- JavaScript `Number.prototype.toFixed(6)` on the idealized rational
value: a leading '-' for negative input, then the rounded absolute value
(ECMAScript rounds the absolute value, ties away from zero). -/
def toFixed6 (q : ℚ) : String :=
  if q < 0 then "-" ++ toFixed6Abs (qNeg q) else toFixed6Abs q

/-- The canonical string form `hashArray` feeds to the hash: "null" for
null/undefined, `NaN`/`Inf`/`-Inf` sentinels, `toFixed(6)` for finite
numbers, and the string itself for strings. -/
def canonicalHVal : HVal → String
  | .null => "null"
  | .num .nan => "NaN"
  | .num .inf => "Inf"
  | .num .neginf => "-Inf"
  | .num (.fin q) => toFixed6 q
  | .str s => s

/-- One FNV-1a step of `hashArray`:
`hash ^= charCode; hash = Math.imul(hash, 16777619)`, on the 32-bit bit
pattern (`Math.imul` multiplies modulo 2^32). -/
def fnvFoldChar (h : Nat) (c : Char) : Nat :=
  ((h ^^^ c.toNat) * 16777619) % 4294967296

/-- Fold all characters of one canonical string into the hash state. -/
def fnvFoldString (h : Nat) (s : String) : Nat := s.data.foldl fnvFoldChar h

/-- JavaScript `(hash >>> 0).toString(16)`: lowercase hex digits of the
unsigned 32-bit value. -/
def natHexString (n : Nat) : String := String.mk (Nat.toDigits 16 n)

/-- `hashArray` of changeDetection.ts on a (non-null) array: the sentinel
"empty" for an empty array, otherwise the hex form of the FNV-1a fold over
the canonical strings of all elements, seeded with the FNV offset basis
2166136261. -/
def hashArrayL (l : List HVal) : String :=
  if l = [] then "empty"
  else natHexString ((l.map canonicalHVal).foldl fnvFoldString 2166136261)

/-- `hashArray` including the falsy guard: a `null`/`undefined` array (both
modelled as `Option.none`) hashes to the sentinel "empty", like an empty
array. -/
def hashArrayOpt : Option (List HVal) → String
  | none => "empty"
  | some l => hashArrayL l

/-- Lift a number list to hashable values. -/
def hvNums (l : List JSNum) : List HVal := l.map HVal.num

/-- `DataState` of changeDetection.ts. -/
structure DataState where
  numeratorsHash : String
  denominatorsHash : Option String
  keysHash : String
  dataLength : Nat
  splitIndexesHash : String
  viewportWidth : ℚ
  viewportHeight : ℚ
deriving DecidableEq, Repr

/-- `createDataState` of changeDetection.ts: hashes of numerators,
denominators (null when the array is null/undefined), key labels ("null"
for a null keys array), the data length, the split-index hash and the
viewport dimensions. -/
def createDataState (numerators denominators : Option (List JSNum))
    (keys : Option (List KeyJS)) (splitIndexes : Option (List JSNum))
    (viewportWidth viewportHeight : ℚ) : DataState :=
  { numeratorsHash := hashArrayOpt (numerators.map hvNums)
    denominatorsHash := denominators.map (fun d => hashArrayL (hvNums d))
    keysHash :=
      match keys with
      | none => "null"
      | some ks => hashArrayL (ks.map (fun k => HVal.str k.label))
    dataLength := match numerators with | none => 0 | some l => l.length
    splitIndexesHash := hashArrayOpt (splitIndexes.map hvNums)
    viewportWidth := viewportWidth
    viewportHeight := viewportHeight }

/-- `SettingsState` of changeDetection.ts: the per-category hash map,
as an association list in insertion order. -/
structure SettingsState where
  categoryHashes : List (String × String)
deriving DecidableEq, Repr

/-- Result triple of `detectDataChanges`. -/
structure DataChangeResult where
  dataChanged : Bool
  resizeOnly : Bool
  viewportChanged : Bool
deriving DecidableEq, Repr

/-- `detectDataChanges(prev, current)` of changeDetection.ts: with no
previous state everything counts as changed; otherwise `dataChanged` is the
disjunction of the five hash/length comparisons, `viewportChanged` the
disjunction of the two dimension comparisons, and
`resizeOnly = viewportChanged && !dataChanged`. -/
def detectDataChanges (prev : Option DataState) (current : DataState) :
    DataChangeResult :=
  match prev with
  | none => { dataChanged := true, resizeOnly := false, viewportChanged := true }
  | some p =>
      let viewportChanged :=
        decide (p.viewportWidth ≠ current.viewportWidth) ||
        decide (p.viewportHeight ≠ current.viewportHeight)
      let dataChanged :=
        decide (p.numeratorsHash ≠ current.numeratorsHash) ||
        decide (p.denominatorsHash ≠ current.denominatorsHash) ||
        decide (p.keysHash ≠ current.keysHash) ||
        decide (p.dataLength ≠ current.dataLength) ||
        decide (p.splitIndexesHash ≠ current.splitIndexesHash)
      { dataChanged := dataChanged
        resizeOnly := viewportChanged && !dataChanged
        viewportChanged := viewportChanged }

/-- `detectSettingsChanges(prev, current)` of changeDetection.ts: all
category names when there is no previous state, otherwise the categories
whose hash differs from the previous one (a missing previous entry counts
as different). -/
def detectSettingsChanges (prev : Option SettingsState)
    (current : SettingsState) : List String :=
  match prev with
  | none => current.categoryHashes.map Prod.fst
  | some p =>
      (current.categoryHashes.filter
        (fun e => decide (p.categoryHashes.lookup e.1 ≠ some e.2))).map Prod.fst

/-- `SETTINGS_TO_RENDER_MAP` of changeDetection.ts. -/
def settingsToRenderMap : String → Option (List String) := fun category =>
  if category = "spc" then some ["dots", "lines", "icons"]
  else if category = "lines" then some ["lines", "lineLabels"]
  else if category = "scatter" then some ["dots"]
  else if category = "outliers" then some ["dots", "lines", "icons"]
  else if category = "x_axis" then some ["xAxis"]
  else if category = "y_axis" then some ["yAxis"]
  else if category = "canvas" then some ["all"]
  else if category = "labels" then some ["valueLabels"]
  else if category = "nhs_icons" then some ["icons"]
  else if category = "summary_table" then some ["summaryTable"]
  else if category = "download" then some ["downloadButton"]
  else none

/-- `LIMIT_RECALC_SETTINGS` of changeDetection.ts. -/
def limitRecalcSettings : List String := ["spc"]

/-- `OUTLIER_RECALC_SETTINGS` of changeDetection.ts. -/
def outlierRecalcSettings : List String := ["outliers"]

/-- `Set.add` on the render-stage set: insertion-ordered, duplicate-free. -/
def addStage (l : List String) (s : String) : List String :=
  if s ∈ l then l else l ++ [s]

/-- `ChangeFlags` of changeDetection.ts. -/
structure ChangeFlags where
  dataChanged : Bool
  settingsChanged : List String
  limitsNeedRecalc : Bool
  outliersNeedRecalc : Bool
  renderNeeded : List String
  resizeOnly : Bool
  viewportChanged : Bool
deriving DecidableEq, Repr

/-- The body of `computeChangeFlags` after the two detector calls: the
first-run short-circuit, the data-change stage requests, the per-category
recalculation flags and mapped render stages, the unconditional axis
re-render on a viewport change, and the resize-only dots/lines request. -/
def computeChangeFlagsCore (dc : DataChangeResult) (sc : List String)
    (isFirstRun : Bool) : ChangeFlags :=
  if isFirstRun then
    { dataChanged := true
      settingsChanged := sc
      limitsNeedRecalc := true
      outliersNeedRecalc := true
      renderNeeded := ["all"]
      resizeOnly := false
      viewportChanged := true }
  else
    let st0 : Bool × Bool × List String :=
      if dc.dataChanged then
        (true, true,
          ["dots", "lines", "icons", "xAxis", "yAxis", "valueLabels",
            "lineLabels"])
      else (false, false, [])
    let st1 := sc.foldl (fun (acc : Bool × Bool × List String) category =>
      let limitsB := acc.1 || decide (category ∈ limitRecalcSettings)
      let outliersB := acc.2.1 || decide (category ∈ limitRecalcSettings) ||
        decide (category ∈ outlierRecalcSettings)
      let renderL :=
        match settingsToRenderMap category with
        | some stages => stages.foldl addStage acc.2.2
        | none => acc.2.2
      (limitsB, outliersB, renderL)) st0
    let render2 :=
      if dc.viewportChanged then addStage (addStage st1.2.2 "xAxis") "yAxis"
      else st1.2.2
    let render3 :=
      if dc.resizeOnly && !st1.1 then
        addStage (addStage render2 "dots") "lines"
      else render2
    { dataChanged := dc.dataChanged
      settingsChanged := sc
      limitsNeedRecalc := st1.1
      outliersNeedRecalc := st1.2.1
      renderNeeded := render3
      resizeOnly := dc.resizeOnly
      viewportChanged := dc.viewportChanged }

/-- `computeChangeFlags` of changeDetection.ts. -/
def computeChangeFlags (prevDataState : Option DataState)
    (currentDataState : DataState) (prevSettingsState : Option SettingsState)
    (currentSettingsState : SettingsState) (isFirstRun : Bool) : ChangeFlags :=
  computeChangeFlagsCore (detectDataChanges prevDataState currentDataState)
    (detectSettingsChanges prevSettingsState currentSettingsState) isFirstRun

/-!
## Subgroup boundaries

Embedded from `viewModelClass.getGroupingIndexes`
(src/Classes/viewModelClass.ts): merge the manual split indexes, `-1`, the
external grouping-break indexes and `keys.length - 1`; deduplicate keeping
the first occurrence (`arr.indexOf(d) === idx`); sort ascending
(`.sort((a, b) => a - b)`); pair consecutive values `a, b` into the
half-open range `[a + 1, b + 1)`.
-/

/-- JavaScript `filter((d, idx, arr) => arr.indexOf(d) === idx)`:
deduplication keeping the first occurrence of each value. -/
def jsDedup : List Int → List Int
  | [] => []
  | a :: rest => a :: jsDedup (rest.filter (fun x => x != a))
termination_by l => l.length
decreasing_by
  simp only [List.length_cons]
  exact Nat.lt_succ_of_le (List.length_filter_le _ _)

/-- Pair each two consecutive boundary values `a, b` into the range
`(a + 1, b + 1)` (`groupStartEndIndexes.push([allIndexes[i] + 1,
allIndexes[i + 1] + 1])`). -/
def pairRanges : List Int → List (Int × Int)
  | a :: b :: rest => (a + 1, b + 1) :: pairRanges (b :: rest)
  | _ => []

/-- `viewModelClass.getGroupingIndexes(inputData, splitIndexes)`: the
subgroup ranges obtained from the split indexes, `-1`, the grouping-break
indexes and `keys.length - 1` after first-occurrence deduplication and
ascending sort. -/
def getGroupingIndexes (splitIndexes groupingIndexes : List Int)
    (numKeys : Nat) : List (Int × Int) :=
  let allIndexes := List.insertionSort (fun a b => a ≤ b)
    (jsDedup (splitIndexes ++ [-1] ++ groupingIndexes ++ [(numKeys : Int) - 1]))
  pairRanges allIndexes

/-!
## The orchestrator update cycle

A state-transition model of `viewModelClass.update`
(src/Classes/viewModelClass.ts) on its non-grouped data path (`options.type
=== 2 || firstRun`, settings valid, data view valid): the extraction result
and the heavy per-stage computations (`calculateLimits`, `flagOutliers`,
`initialisePlotData`) are abstracted as type parameters and function
arguments, while the control flow — which fields are overwritten in which
validation outcome, and the change-flag gating — follows the source.
-/

/-- The orchestrator state retained across update cycles (the
`viewModelClass` fields the non-grouped path touches).  `I`, `L`, `O`, `P`
abstract the extracted input data, control limits, outlier flags and plot
points. -/
structure VMState (I L O P : Type) where
  inputData : Option I
  controlLimits : Option L
  outliers : Option O
  plotPoints : Option P
  splitIndexes : List JSNum
  prevDataState : Option DataState
  prevSettingsState : Option SettingsState
  lastChangeFlags : Option ChangeFlags
  firstRun : Bool

/-- One cycle's inputs on the non-grouped path: the freshly extracted data
(with its validation status/error and warning message), the pieces
`createDataState` hashes, the parsed split indexes, the current settings
state and the viewport. -/
structure UpdateArgs (I : Type) where
  inputData : I
  validStatus : Int
  validError : String
  warningMessage : String
  numerators : Option (List JSNum)
  denominators : Option (List JSNum)
  keys : Option (List KeyJS)
  splitIndexes : List JSNum
  currentSettingsState : SettingsState
  viewportWidth : ℚ
  viewportHeight : ℚ

/-- The `viewModelValidationT` result of `update`. -/
structure UpdateResult where
  status : Bool
  error : Option String
  warning : Option String
deriving DecidableEq, Repr

/-- `viewModelClass.update` on the non-grouped data path: store the parsed
split indexes and extracted input; when validation succeeded, compute
change flags, recompute limits/outliers as the flags demand, rebuild the
plot data and advance the previous data state; always advance the previous
settings state and clear `firstRun`; report an error result exactly when
validation failed. -/
def vmUpdate {I L O P : Type} (calcLimits : I → L) (flagOuts : Option L → O)
    (buildPlot : Option L → Option O → I → P) (st : VMState I L O P)
    (args : UpdateArgs I) : VMState I L O P × UpdateResult :=
  let st1 := { st with
    splitIndexes := args.splitIndexes
    inputData := some args.inputData }
  let st2 :=
    if args.validStatus = 0 then
      let currentDataState := createDataState args.numerators
        args.denominators args.keys (some args.splitIndexes)
        args.viewportWidth args.viewportHeight
      let flags := computeChangeFlags st.prevDataState currentDataState
        st.prevSettingsState args.currentSettingsState st.firstRun
      let cl :=
        if flags.limitsNeedRecalc || st.firstRun then
          some (calcLimits args.inputData)
        else st1.controlLimits
      let outs :=
        if flags.outliersNeedRecalc || st.firstRun then some (flagOuts cl)
        else st1.outliers
      { st1 with
        controlLimits := cl
        outliers := outs
        plotPoints := some (buildPlot cl outs args.inputData)
        prevDataState := some currentDataState
        lastChangeFlags := some flags }
    else st1
  let st3 := { st2 with
    prevSettingsState := some args.currentSettingsState
    firstRun := false }
  if args.validStatus = 0 then
    (st3, { status := true, error := none
            warning := if args.warningMessage ≠ "" then
                some args.warningMessage
              else none })
  else
    (st3, { status := false, error := some args.validError, warning := none })

/-!
## Theorems

Helper lemmas first, then one theorem per claim (with counterexamples and
witnesses where required).
-/

/-- Every element of `l.map f` is the image of the corresponding element of
`l`. -/
theorem forall2_map_self {α β : Type} (f : α → β) :
    ∀ l : List α, List.Forall₂ (fun r v => v = f r) l (l.map f)
  | [] => List.Forall₂.nil
  | _ :: rest => List.Forall₂.cons rfl (forall2_map_self f rest)

/-- C1, counterexample: on the specification's example input with backfill
disabled, the worker `twoInThree` already flags index 3 "upper" (points 1..3
are 20, 90, 95: two of the last three exceed the bound 50), so the claimed
output — "none" everywhere except indices 5 and 6 — is wrong at index 3. -/
theorem twoInThree_example_flags_index3 :
    (twoInThreeWorker c1Values c1LowerBound c1UpperBound false).getD 3 "" =
      "upper" ∧ ("upper" : String) ≠ "none" := by decide

/-- C1, amended: on the value series `[10, 20, 90, 95, 15, 95, 95]` with the
upper 2-sigma bound 50 at every point, no lower-bound crossings and backfill
disabled, the TwoInThree rule returns "upper" at indices 3, 4, 5 and 6 and
"none" at indices 0, 1 and 2. -/
theorem twoInThree_example_output :
    twoInThreeWorker c1Values c1LowerBound c1UpperBound false =
      ["none", "none", "none", "upper", "upper", "upper", "upper"] := by decide

/-- C3, counterexample: for the input with numerators `[Infinity]` and
denominators `[1]`, the ratio `Infinity / 1 = Infinity` is non-finite, yet
the worker `iLimits` keeps `Infinity` in the returned values array instead
of the claimed sentinel 0: only `NaN` passes the `isNaN` substitution. -/
theorem iLimitsWorker_keeps_infinity :
    (iLimitsWorker c3Args).values = [JSNum.inf] ∧
      (JSNum.inf : JSNum) ≠ fin 0 := by decide

/-- C3, amended: the worker `iLimits` substitutes the sentinel 0 exactly at
the positions where the transformed ratio is `NaN`, so its values array
never contains `NaN`; a non-finite infinity, by contrast, passes the `isNaN`
check unchanged (counterexample above), and a zero denominator never divides
at all (the falsy guard returns the raw numerator). -/
theorem iLimitsWorker_values_nan_free (args : WorkerLimitArgs) :
    List.Forall₂ (fun r v => v = if jsIsNaN r then fin 0 else r)
      (workerRatioOf args) ((iLimitsWorker args).values) ∧
    JSNum.nan ∉ (iLimitsWorker args).values := by
  constructor
  · exact forall2_map_self _ (workerRatioOf args)
  · intro hmem
    have hex : ∃ d ∈ workerRatioOf args,
        (if jsIsNaN d then fin 0 else d) = JSNum.nan := by
      simpa [iLimitsWorker] using hmem
    obtain ⟨d, _, hd⟩ := hex
    cases d <;> simp [jsIsNaN] at hd

/-- C2, counterexample: for the subgroup `[5, 5]` (all values equal, no
denominators) with `outliers_in_limits` disabled, the screened difference
list is empty, `d3.mean` of it is `undefined`, the dispersion estimate is
`NaN`, and the 3-sigma bounds are `NaN` rather than the centre line 5. -/
theorem iLimits_allEqual_nan_bounds :
    iSigma c2Args false = JSNum.nan ∧
      (iLimits c2Args false).targets = [fin 5, fin 5] ∧
      (iLimits c2Args false).ll99 = [JSNum.nan, JSNum.nan] ∧
      (iLimits c2Args false).ll99 ≠ (iLimits c2Args false).targets := by
  refine ⟨by decide, by decide, by decide, by decide⟩

/-- C4: on the first run, `computeChangeFlags` reports data changed, limits
and outliers needing recomputation, not a resize-only cycle, and the
render-stage set containing the universal "all" sentinel, for every pair of
data and settings states. -/
theorem computeChangeFlags_firstRun (prevD : Option DataState)
    (currD : DataState) (prevS : Option SettingsState)
    (currS : SettingsState) :
    (computeChangeFlags prevD currD prevS currS true).dataChanged = true ∧
    (computeChangeFlags prevD currD prevS currS true).limitsNeedRecalc = true ∧
    (computeChangeFlags prevD currD prevS currS true).outliersNeedRecalc = true ∧
    (computeChangeFlags prevD currD prevS currS true).resizeOnly = false ∧
    "all" ∈ (computeChangeFlags prevD currD prevS currS true).renderNeeded := by
  refine ⟨rfl, rfl, rfl, rfl, ?_⟩
  show "all" ∈ ["all"]
  simp

/-- `qAdd` agrees with library addition on `ℚ`. -/
theorem qAdd_eq (a b : ℚ) : qAdd a b = a + b := by
  rw [qAdd, Rat.mkRat_eq_div]
  conv_rhs => rw [← Rat.num_div_den a, ← Rat.num_div_den b]
  have ha : ((a.den : ℚ)) ≠ 0 := by exact_mod_cast a.den_nz
  have hb : ((b.den : ℚ)) ≠ 0 := by exact_mod_cast b.den_nz
  field_simp

/-- `qSub` agrees with library subtraction on `ℚ`. -/
theorem qSub_eq (a b : ℚ) : qSub a b = a - b := by
  rw [qSub, Rat.mkRat_eq_div]
  conv_rhs => rw [← Rat.num_div_den a, ← Rat.num_div_den b]
  have ha : ((a.den : ℚ)) ≠ 0 := by exact_mod_cast a.den_nz
  have hb : ((b.den : ℚ)) ≠ 0 := by exact_mod_cast b.den_nz
  field_simp
  ring

/-- `qMul` agrees with library multiplication on `ℚ`. -/
theorem qMul_eq (a b : ℚ) : qMul a b = a * b := by
  rw [qMul, Rat.mkRat_eq_div]
  conv_rhs => rw [← Rat.num_div_den a, ← Rat.num_div_den b]
  have ha : ((a.den : ℚ)) ≠ 0 := by exact_mod_cast a.den_nz
  have hb : ((b.den : ℚ)) ≠ 0 := by exact_mod_cast b.den_nz
  field_simp

/-- `qNeg` agrees with library negation on `ℚ`. -/
theorem qNeg_eq (a : ℚ) : qNeg a = -a := by
  rw [qNeg, Rat.mkRat_eq_div]
  conv_rhs => rw [← Rat.num_div_den a]
  push_cast
  ring

/-- `qDiv` agrees with library division on `ℚ`. -/
theorem qDiv_eq (a b : ℚ) : qDiv a b = a / b := by
  rw [qDiv]
  by_cases hb0 : b.num = 0
  · have hb : b = 0 := by exact_mod_cast Rat.zero_iff_num_zero.mpr hb0
    subst hb
    simp [mkRat]
  · have habs : ((b.num.natAbs : ℚ)) = |((b.num : ℤ) : ℚ)| := by
      push_cast [Int.cast_natAbs]
      rfl
    have ha : ((a.den : ℚ)) ≠ 0 := by exact_mod_cast a.den_nz
    have hbd : ((b.den : ℚ)) ≠ 0 := by exact_mod_cast b.den_nz
    have hbn : ((b.num : ℚ)) ≠ 0 := by exact_mod_cast hb0
    rcases lt_or_gt_of_ne hb0 with hneg | hpos
    · rw [if_neg (by omega), Rat.mkRat_eq_div]
      conv_rhs => rw [← Rat.num_div_den a, ← Rat.num_div_den b]
      have habs2 : ((b.num.natAbs : ℚ)) = -((b.num : ℚ)) := by
        rw [habs, abs_of_neg (by exact_mod_cast hneg)]
      push_cast
      rw [habs2]
      field_simp
    · rw [if_pos (by omega), Rat.mkRat_eq_div]
      conv_rhs => rw [← Rat.num_div_den a, ← Rat.num_div_den b]
      have habs2 : ((b.num.natAbs : ℚ)) = ((b.num : ℚ)) := by
        rw [habs, abs_of_pos (by exact_mod_cast hpos)]
      push_cast
      rw [habs2]
      field_simp

/-- `jsAdd` on finite values is rational addition. -/
theorem jsAdd_fin (a b : ℚ) : jsAdd (fin a) (fin b) = fin (a + b) := by
  show fin (qAdd a b) = fin (a + b)
  rw [qAdd_eq]

/-- `jsSub` on finite values is rational subtraction. -/
theorem jsSub_fin (a b : ℚ) : jsSub (fin a) (fin b) = fin (a - b) := by
  show fin (qSub a b) = fin (a - b)
  rw [qSub_eq]

/-- `jsMul` on finite values is rational multiplication. -/
theorem jsMul_fin (a b : ℚ) : jsMul (fin a) (fin b) = fin (a * b) := by
  show fin (qMul a b) = fin (a * b)
  rw [qMul_eq]

/-- `jsDiv` on finite values with a non-zero divisor is rational division. -/
theorem jsDiv_fin (a b : ℚ) (hb : b ≠ 0) :
    jsDiv (fin a) (fin b) = fin (a / b) := by
  show (if b = 0 then _ else fin (qDiv a b)) = fin (a / b)
  rw [if_neg hb, qDiv_eq]

/-- Folding `jsAdd` over a constant finite list sums it. -/
theorem foldl_jsAdd_replicate (n : Nat) (a v : ℚ) :
    List.foldl jsAdd (fin a) (List.replicate n (fin v)) =
      fin (a + n * v) := by
  induction n generalizing a with
  | zero => simp
  | succ m ih =>
      rw [List.replicate_succ, List.foldl_cons, jsAdd_fin, ih]
      congr 1
      push_cast
      ring

/-- `jsSum` of a constant finite list. -/
theorem jsSum_replicate (n : Nat) (v : ℚ) :
    jsSum (List.replicate n (fin v)) = fin (n * v) := by
  have h := foldl_jsAdd_replicate n 0 v
  rw [zero_add] at h
  exact h

/-- `d3.mean` of a non-empty constant finite list is the constant. -/
theorem d3Mean_replicate (n : Nat) (hn : n ≠ 0) (v : ℚ) :
    d3Mean (List.replicate n (fin v)) = some (fin v) := by
  unfold d3Mean
  have hfil : (List.replicate n (fin v)).filter (fun x => !jsIsNaN x) =
      List.replicate n (fin v) := by
    apply List.filter_eq_self.mpr
    intro a ha
    rw [List.eq_of_mem_replicate ha]
    rfl
  simp only [hfil]
  rw [if_neg (by simpa using hn)]
  rw [jsSum_replicate, List.length_replicate]
  rw [jsDiv_fin _ _ (by exact_mod_cast hn)]
  congr 2
  rw [mul_comm, mul_div_assoc, div_self (by exact_mod_cast hn), mul_one]

/-- Consecutive differences of a constant finite list are all zero. -/
theorem jsDiff_replicate : ∀ (n : Nat) (v : ℚ),
    jsDiff (List.replicate n (fin v)) = List.replicate (n - 1) (fin 0)
  | 0, _ => rfl
  | 1, _ => rfl
  | (m + 2), v => by
      have ih := jsDiff_replicate (m + 1) v
      rw [List.replicate_succ, List.replicate_succ]
      show (jsSub (fin v) (fin v)) :: jsDiff (fin v :: List.replicate m (fin v)) = _
      rw [jsSub_fin, sub_self, ← List.replicate_succ, ih]
      rfl

/-- `Math.abs` of the finite zero. -/
theorem jsAbs_fin_zero : jsAbs (fin 0) = fin 0 := by decide

/-- C2, amended: for every subgroup of at least two points whose
transformed value series is constant — whether the transform is the raw
numerators or the numerator/denominator ratio — and with
`outliers_in_limits` enabled, the i-chart calculator's dispersion estimate
is 0 and the values, targets and all four bounds equal the centre-line
value at every point.  (With `outliers_in_limits` disabled the one-pass
screen `d < 3.267 * mean` empties the all-zero difference list and the
bounds become `NaN`: see the counterexample.) -/
theorem iLimits_allEqual_collapse (inputData : DataClassI) (v : ℚ)
    (h2 : 2 ≤ inputData.keys.length)
    (hvals : iRatioOf inputData =
      List.replicate inputData.keys.length (fin v)) :
    iSigma inputData true = fin 0 ∧
    (iLimits inputData true).values =
      List.replicate inputData.keys.length (fin v) ∧
    (iLimits inputData true).targets =
      List.replicate inputData.keys.length (fin v) ∧
    (iLimits inputData true).ll99 =
      List.replicate inputData.keys.length (fin v) ∧
    (iLimits inputData true).ll95 =
      List.replicate inputData.keys.length (fin v) ∧
    (iLimits inputData true).ul95 =
      List.replicate inputData.keys.length (fin v) ∧
    (iLimits inputData true).ul99 =
      List.replicate inputData.keys.length (fin v) := by
  have hlen : inputData.keys.length - 1 ≠ 0 := by omega
  have hsigma : iSigma inputData true = fin 0 := by
    unfold iSigma
    rw [hvals, jsDiff_replicate, List.map_replicate, jsAbs_fin_zero]
    show jsDiv (undefToNaN (d3Mean
      (List.replicate (inputData.keys.length - 1) (fin 0))))
      (fin (mkRat 1128 1000)) = fin 0
    rw [d3Mean_replicate _ hlen]
    show jsDiv (fin 0) (fin (mkRat 1128 1000)) = fin 0
    rw [jsDiv_fin _ _ (by decide), zero_div]
  have hcl : d3Mean (List.replicate inputData.keys.length (fin v)) =
      some (fin v) := d3Mean_replicate _ (by omega) v
  have hmul3 : jsMul (fin 3) (fin 0) = fin 0 := by rw [jsMul_fin, mul_zero]
  have hmul2 : jsMul (fin 2) (fin 0) = fin 0 := by rw [jsMul_fin, mul_zero]
  refine ⟨hsigma, ?_, ?_, ?_, ?_, ?_, ?_⟩ <;>
    simp [iLimits, hvals, hcl, hsigma, undefToNaN, hmul3, hmul2, jsSub_fin,
      jsAdd_fin, sub_zero, add_zero, List.map_replicate, jsIsNaN]

/-- C2, witness: the amended theorem applied to a two-point ratio subgroup
with numerators `[1, 2]` and denominators `[2, 4]`, whose transformed
values are both `1/2`. -/
theorem iLimits_allEqual_collapse_witness :
    (2 ≤ (([⟨0, 0, "p0"⟩, ⟨1, 1, "p1"⟩] : List KeyJS)).length ∧
      iRatioOf ⟨[⟨0, 0, "p0"⟩, ⟨1, 1, "p1"⟩], [fin 1, fin 2],
          some [fin 2, fin 4]⟩ =
        List.replicate 2 (fin (mkRat 1 2))) ∧
    iSigma ⟨[⟨0, 0, "p0"⟩, ⟨1, 1, "p1"⟩], [fin 1, fin 2],
      some [fin 2, fin 4]⟩ true = fin 0 :=
  ⟨⟨by decide, by decide⟩,
    (iLimits_allEqual_collapse
      ⟨[⟨0, 0, "p0"⟩, ⟨1, 1, "p1"⟩], [fin 1, fin 2], some [fin 2, fin 4]⟩
      (mkRat 1 2) (by decide) (by decide)).1⟩

/-- `detectDataChanges` with a previous state sets `resizeOnly` to
`viewportChanged && !dataChanged` by construction. -/
theorem detectDataChanges_resizeOnly_eq (p c : DataState) :
    (detectDataChanges (some p) c).resizeOnly =
      ((detectDataChanges (some p) c).viewportChanged &&
        !(detectDataChanges (some p) c).dataChanged) := rfl

/-- With unchanged data and no changed settings category, a non-first
cycle never requests limit recomputation. -/
theorem computeChangeFlagsCore_noChange_limits (r v : Bool) :
    (computeChangeFlagsCore ⟨false, r, v⟩ [] false).limitsNeedRecalc =
      false := rfl

/-- C5, counterexample: a resize-only non-first cycle (only the width
changed, settings unchanged) has `resizeOnly = true` and
`limitsNeedRecalc = false`, yet its render-stage set contains "xAxis" — a
viewport change always requests both axis stages — so the set does not
contain only the dots and lines stages. -/
theorem computeChangeFlags_resize_requests_axes :
    (computeChangeFlags (some ⟨"n", some "d", "k", 3, "s", 100, 100⟩)
        ⟨"n", some "d", "k", 3, "s", 200, 100⟩
        (some ⟨[("spc", "h1")]⟩) ⟨[("spc", "h1")]⟩ false).resizeOnly = true ∧
    (computeChangeFlags (some ⟨"n", some "d", "k", 3, "s", 100, 100⟩)
        ⟨"n", some "d", "k", 3, "s", 200, 100⟩
        (some ⟨[("spc", "h1")]⟩) ⟨[("spc", "h1")]⟩ false).limitsNeedRecalc =
      false ∧
    "xAxis" ∈ (computeChangeFlags (some ⟨"n", some "d", "k", 3, "s", 100, 100⟩)
        ⟨"n", some "d", "k", 3, "s", 200, 100⟩
        (some ⟨[("spc", "h1")]⟩) ⟨[("spc", "h1")]⟩ false).renderNeeded ∧
    ("xAxis" : String) ≠ "dots" ∧ ("xAxis" : String) ≠ "lines" := by decide

/-- C5, amended: on a non-first cycle whose data is unchanged, whose
viewport changed (hence `resizeOnly`), and with no settings category
changed, `computeChangeFlags` reports `resizeOnly = true`,
`limitsNeedRecalc = false`, and requests exactly the axis re-render stages
(xAxis, yAxis, always added on a viewport change) together with the two
cheapest stages (dots, lines). -/
theorem computeChangeFlags_resizeOnly_stages (p c : DataState)
    (ps : Option SettingsState) (cs : SettingsState)
    (hd : (detectDataChanges (some p) c).dataChanged = false)
    (hv : (detectDataChanges (some p) c).viewportChanged = true)
    (hs : detectSettingsChanges ps cs = []) :
    (computeChangeFlags (some p) c ps cs false).resizeOnly = true ∧
    (computeChangeFlags (some p) c ps cs false).limitsNeedRecalc = false ∧
    (computeChangeFlags (some p) c ps cs false).renderNeeded =
      ["xAxis", "yAxis", "dots", "lines"] := by
  have hdc : detectDataChanges (some p) c = ⟨false, true, true⟩ := by
    have hr := detectDataChanges_resizeOnly_eq p c
    cases hE : detectDataChanges (some p) c with
    | mk d r0 v0 =>
        rw [hE] at hd hv hr
        simp only at hd hv hr
        subst hd hv
        simp only [Bool.true_and, Bool.not_false] at hr
        subst hr
        rfl
  unfold computeChangeFlags
  rw [hdc, hs]
  decide

/-- C5, witness: the amended theorem applied to states that differ only in
the viewport width, with identical settings hashes. -/
theorem computeChangeFlags_resizeOnly_stages_witness :
    ((detectDataChanges (some ⟨"n", some "d", "k", 3, "s", 100, 100⟩)
        ⟨"n", some "d", "k", 3, "s", 200, 100⟩).dataChanged = false ∧
      (detectDataChanges (some ⟨"n", some "d", "k", 3, "s", 100, 100⟩)
        ⟨"n", some "d", "k", 3, "s", 200, 100⟩).viewportChanged = true ∧
      detectSettingsChanges (some ⟨[("lines", "h2")]⟩) ⟨[("lines", "h2")]⟩ =
        []) ∧
    (computeChangeFlags (some ⟨"n", some "d", "k", 3, "s", 100, 100⟩)
        ⟨"n", some "d", "k", 3, "s", 200, 100⟩
        (some ⟨[("lines", "h2")]⟩) ⟨[("lines", "h2")]⟩ false).renderNeeded =
      ["xAxis", "yAxis", "dots", "lines"] :=
  ⟨⟨by decide, by decide, by decide⟩,
    (computeChangeFlags_resizeOnly_stages _ _ _ _ (by decide) (by decide)
      (by decide)).2.2⟩

/-- C6: `detectDataChanges` with a previous state reports `dataChanged`
exactly when one of the five hashes or the length differs, and
`viewportChanged` exactly when the width or height differs, with
`resizeOnly = viewportChanged && !dataChanged`; consequently identical data
with a changed viewport is a resize-only cycle, and with no changed
settings category a non-first `computeChangeFlags` cycle then reports
`limitsNeedRecalc = false`. -/
theorem detectDataChanges_spec (p c : DataState) (ps : Option SettingsState)
    (cs : SettingsState) (hs : detectSettingsChanges ps cs = []) :
    ((detectDataChanges (some p) c).dataChanged = true ↔
      (p.numeratorsHash ≠ c.numeratorsHash ∨
        p.denominatorsHash ≠ c.denominatorsHash ∨
        p.keysHash ≠ c.keysHash ∨
        p.dataLength ≠ c.dataLength ∨
        p.splitIndexesHash ≠ c.splitIndexesHash)) ∧
    ((detectDataChanges (some p) c).viewportChanged = true ↔
      (p.viewportWidth ≠ c.viewportWidth ∨
        p.viewportHeight ≠ c.viewportHeight)) ∧
    ((detectDataChanges (some p) c).resizeOnly =
      ((detectDataChanges (some p) c).viewportChanged &&
        !(detectDataChanges (some p) c).dataChanged)) ∧
    ((detectDataChanges (some p) c).dataChanged = false →
      (detectDataChanges (some p) c).viewportChanged = true →
      (detectDataChanges (some p) c).resizeOnly = true ∧
      (computeChangeFlags (some p) c ps cs false).limitsNeedRecalc =
        false) := by
  refine ⟨?_, ?_, detectDataChanges_resizeOnly_eq p c, ?_⟩
  · simp [detectDataChanges]
    tauto
  · simp [detectDataChanges]
  · intro hd hv
    constructor
    · rw [detectDataChanges_resizeOnly_eq, hd, hv]
      rfl
    · have hdc : detectDataChanges (some p) c = ⟨false, true, true⟩ := by
        have hr := detectDataChanges_resizeOnly_eq p c
        cases hE : detectDataChanges (some p) c with
        | mk d r0 v0 =>
            rw [hE] at hd hv hr
            simp only at hd hv hr
            subst hd hv
            simp only [Bool.true_and, Bool.not_false] at hr
            subst hr
            rfl
      unfold computeChangeFlags
      rw [hdc, hs]
      exact computeChangeFlagsCore_noChange_limits true true

/-- C6, witness: the specification of `detectDataChanges` applied to the
viewport-only change scenario. -/
theorem detectDataChanges_spec_witness :
    detectSettingsChanges (some (⟨[("spc", "h")]⟩ : SettingsState))
      ⟨[("spc", "h")]⟩ = [] ∧
    ((detectDataChanges (some ⟨"n", some "d", "k", 3, "s", 100, 100⟩)
        ⟨"n", some "d", "k", 3, "s", 100, 250⟩).resizeOnly = true ∧
      (computeChangeFlags (some ⟨"n", some "d", "k", 3, "s", 100, 100⟩)
        ⟨"n", some "d", "k", 3, "s", 100, 250⟩ (some ⟨[("spc", "h")]⟩)
        ⟨[("spc", "h")]⟩ false).limitsNeedRecalc = false) :=
  ⟨by decide,
    (detectDataChanges_spec ⟨"n", some "d", "k", 3, "s", 100, 100⟩
        ⟨"n", some "d", "k", 3, "s", 100, 250⟩ (some ⟨[("spc", "h")]⟩)
        ⟨[("spc", "h")]⟩ (by decide)).2.2.2 (by decide) (by decide)⟩

/-- C8: when input validation fails on a non-grouped update cycle, `update`
returns an error result carrying the validation error, and the control
limits, outlier flags and plot points retained from the last successful
cycle are left unchanged — no partial overwrite occurs. -/
theorem vmUpdate_validation_failure {I L O P : Type} (calcLimits : I → L)
    (flagOuts : Option L → O) (buildPlot : Option L → Option O → I → P)
    (st : VMState I L O P) (args : UpdateArgs I)
    (h : args.validStatus ≠ 0) :
    (vmUpdate calcLimits flagOuts buildPlot st args).2.status = false ∧
    (vmUpdate calcLimits flagOuts buildPlot st args).2.error =
      some args.validError ∧
    (vmUpdate calcLimits flagOuts buildPlot st args).1.controlLimits =
      st.controlLimits ∧
    (vmUpdate calcLimits flagOuts buildPlot st args).1.outliers =
      st.outliers ∧
    (vmUpdate calcLimits flagOuts buildPlot st args).1.plotPoints =
      st.plotPoints := by
  simp [vmUpdate, h]

/-- C8, witness: a failing validation status (1) with previously retained
results 7, 8 and 9 leaves all three in place. -/
theorem vmUpdate_validation_failure_witness :
    ((1 : Int) ≠ 0) ∧
    (vmUpdate (fun _ : Nat => (0 : Nat)) (fun _ => (0 : Nat))
        (fun _ _ _ => (0 : Nat))
        ⟨none, some 7, some 8, some 9, [], none, none, none, false⟩
        ⟨0, 1, "bad", "", none, none, none, [], ⟨[]⟩, 0, 0⟩).1.controlLimits =
      some 7 :=
  ⟨by decide,
    (vmUpdate_validation_failure (fun _ : Nat => (0 : Nat)) (fun _ => (0 : Nat))
      (fun _ _ _ => (0 : Nat))
      ⟨none, some 7, some 8, some 9, [], none, none, none, false⟩
      ⟨0, 1, "bad", "", none, none, none, [], ⟨[]⟩, 0, 0⟩
      (by decide)).2.2.1⟩

/-- C9: the order-sensitive 32-bit FNV-1a hash over 6-decimal canonicalized
elements identifies `[1.0000001, 2]` with `[1.0000004, 2]` (both first
elements print as `1.000000`) and separates `[1.1, 2]` from `[1.2, 2]`. -/
theorem hashArray_sixDecimal_canonicalization :
    hashArrayL [HVal.num (fin (mkRat 10000001 10000000)), HVal.num (fin 2)] =
      hashArrayL [HVal.num (fin (mkRat 10000004 10000000)),
        HVal.num (fin 2)] ∧
    hashArrayL [HVal.num (fin (mkRat 11 10)), HVal.num (fin 2)] ≠
      hashArrayL [HVal.num (fin (mkRat 12 10)), HVal.num (fin 2)] := by
  decide

/-- C10: `hashArray` maps a null/undefined array and a zero-length array to
the identical sentinel hash "empty"; consequently a data state built from
absent data equals the data state built from present-but-empty data (all
else equal), and such a transition alone does not raise `dataChanged`. -/
theorem hashArray_empty_sentinel :
    hashArrayOpt none = "empty" ∧ hashArrayOpt (some []) = "empty" ∧
    ∀ (dens : Option (List JSNum)) (keys : Option (List KeyJS))
      (splits : Option (List JSNum)) (w h : ℚ),
      createDataState none dens keys splits w h =
        createDataState (some []) dens keys splits w h ∧
      (detectDataChanges (some (createDataState none dens keys splits w h))
        (createDataState (some []) dens keys splits w h)).dataChanged =
        false := by
  refine ⟨rfl, rfl, fun dens keys splits w h => ?_⟩
  have hstate : createDataState none dens keys splits w h =
      createDataState (some []) dens keys splits w h := by
    simp [createDataState, hashArrayOpt, hashArrayL, hvNums]
  refine ⟨hstate, ?_⟩
  rw [hstate]
  simp [detectDataChanges]

/-- First-occurrence deduplication preserves membership. -/
theorem jsDedup_mem : ∀ (l : List Int) (x : Int), x ∈ jsDedup l ↔ x ∈ l := by
  intro l
  induction l using jsDedup.induct with
  | case1 =>
      intro x
      rw [jsDedup]
  | case2 a rest ih =>
      intro x
      rw [jsDedup]
      simp only [List.mem_cons, ih, List.mem_filter]
      constructor
      · rintro (rfl | ⟨hmem, _⟩)
        · exact Or.inl rfl
        · exact Or.inr hmem
      · rintro (rfl | hmem)
        · exact Or.inl rfl
        · by_cases hxa : x = a
          · exact Or.inl hxa
          · exact Or.inr ⟨hmem, by simpa using hxa⟩

/-- First-occurrence deduplication yields a duplicate-free list. -/
theorem jsDedup_nodup : ∀ l : List Int, (jsDedup l).Nodup := by
  intro l
  induction l using jsDedup.induct with
  | case1 =>
      rw [jsDedup]
      exact List.nodup_nil
  | case2 a rest ih =>
      rw [jsDedup]
      refine List.nodup_cons.mpr ⟨?_, ih⟩
      intro hmem
      have hfil := (jsDedup_mem _ a).mp hmem
      rw [List.mem_filter] at hfil
      simp at hfil

/-- The deduplicated-and-sorted boundary list is strictly sorted. -/
theorem sortedBoundaries_sorted (l : List Int) :
    List.Sorted (· < ·) (List.insertionSort (fun a b => a ≤ b) (jsDedup l)) := by
  have hs : List.Sorted (fun a b => a ≤ b)
      (List.insertionSort (fun a b => a ≤ b) (jsDedup l)) :=
    List.sorted_insertionSort _ _
  have hp : List.Perm (List.insertionSort (fun a b => a ≤ b) (jsDedup l))
      (jsDedup l) := List.perm_insertionSort _ _
  have hn : (List.insertionSort (fun a b => a ≤ b) (jsDedup l)).Nodup :=
    hp.nodup_iff.mpr (jsDedup_nodup l)
  exact List.Sorted.lt_of_le hs hn

/-- Sorting the deduplicated boundary list preserves membership. -/
theorem sortedBoundaries_mem (l : List Int) (x : Int) :
    x ∈ List.insertionSort (fun a b => a ≤ b) (jsDedup l) ↔ x ∈ l := by
  rw [(List.perm_insertionSort (fun a b => a ≤ b) (jsDedup l)).mem_iff]
  exact jsDedup_mem l x

/-- Adjacent subgroup ranges always share their boundary: each range ends
where the next one starts, by construction of the consecutive pairing. -/
theorem pairRanges_chain :
    ∀ l : List Int, List.Chain' (fun r s => r.2 = s.1) (pairRanges l)
  | [] => List.chain'_nil
  | [_] => by
      simp [pairRanges]
  | a :: b :: rest => by
      rw [pairRanges, List.chain'_cons']
      refine ⟨?_, pairRanges_chain (b :: rest)⟩
      intro s hs
      cases rest with
      | nil => simp [pairRanges] at hs
      | cons c rest' =>
          simp only [pairRanges, List.head?_cons, Option.mem_def,
            Option.some.injEq] at hs
          rw [← hs]

/-- Every subgroup range comes from two members of the boundary list. -/
theorem pairRanges_mem :
    ∀ (l : List Int) (r : Int × Int), r ∈ pairRanges l →
      ∃ x ∈ l, ∃ y ∈ l, r = (x + 1, y + 1)
  | [], _, h => by simp [pairRanges] at h
  | [_], _, h => by simp [pairRanges] at h
  | a :: b :: rest, r, h => by
      rw [pairRanges, List.mem_cons] at h
      rcases h with rfl | h
      · exact ⟨a, List.mem_cons_self a _, b,
          List.mem_cons_of_mem a (List.mem_cons_self b _), rfl⟩
      · obtain ⟨x, hx, y, hy, hr⟩ := pairRanges_mem (b :: rest) r h
        exact ⟨x, List.mem_cons_of_mem a hx, y, List.mem_cons_of_mem a hy, hr⟩

/-- On a strictly sorted boundary list every subgroup range is non-empty. -/
theorem pairRanges_pos :
    ∀ l : List Int, List.Sorted (· < ·) l →
      ∀ r ∈ pairRanges l, r.1 < r.2
  | [], _, _, h => by simp [pairRanges] at h
  | [_], _, _, h => by simp [pairRanges] at h
  | a :: b :: rest, hsort, r, h => by
      rw [pairRanges, List.mem_cons] at h
      have hab : a < b :=
        (List.sorted_cons.mp hsort).1 b (List.mem_cons_self b _)
      rcases h with rfl | h
      · simpa using hab
      · exact pairRanges_pos (b :: rest) (List.sorted_cons.mp hsort).2 r h

/-- On a strictly sorted boundary list the subgroup ranges are pairwise
ordered and non-overlapping: every earlier range ends at or before every
later range starts. -/
theorem pairRanges_pairwise :
    ∀ l : List Int, List.Sorted (· < ·) l →
      List.Pairwise (fun r s => r.2 ≤ s.1) (pairRanges l)
  | [], _ => by simp [pairRanges]
  | [_], _ => by simp [pairRanges]
  | a :: b :: rest, hsort => by
      rw [pairRanges]
      refine List.pairwise_cons.mpr ⟨?_, pairRanges_pairwise (b :: rest)
        (List.sorted_cons.mp hsort).2⟩
      intro s hs
      obtain ⟨x, hx, y, hy, hr⟩ := pairRanges_mem (b :: rest) s hs
      have hbx : b ≤ x := by
        rcases List.mem_cons.mp hx with rfl | hx'
        · exact le_refl x
        · exact le_of_lt (((List.sorted_cons.mp
            (List.sorted_cons.mp hsort).2).1) x hx')
      subst hr
      show b + 1 ≤ x + 1
      omega

/-- Membership in ranges from a suffix lifts to ranges from the full
boundary list. -/
theorem pairRanges_subset_cons (c : Int) (rest : List Int) :
    ∀ r ∈ pairRanges rest, r ∈ pairRanges (c :: rest) := by
  intro r hr
  cases rest with
  | nil => simp [pairRanges] at hr
  | cons d t =>
      rw [pairRanges]
      exact List.mem_cons_of_mem _ hr

/-- Coverage: on a strictly sorted boundary list, every integer strictly
above some boundary and at or below some boundary lies in one of the
consecutive ranges. -/
theorem pairRanges_cover :
    ∀ l : List Int, List.Sorted (· < ·) l → ∀ j : Int,
      (∃ a ∈ l, a < j) → (∃ b ∈ l, j ≤ b) →
      ∃ r ∈ pairRanges l, r.1 ≤ j ∧ j < r.2
  | [], _, _, haex, _ => by simp at haex
  | c :: rest, hsort, j, haex, hbex => by
      by_cases hrest : ∃ a ∈ rest, a < j
      · have hb : ∃ b ∈ rest, j ≤ b := by
          obtain ⟨b, hbmem, hbj⟩ := hbex
          rcases List.mem_cons.mp hbmem with rfl | hbr
          · obtain ⟨a, har, haj⟩ := hrest
            have hba : b < a := (List.sorted_cons.mp hsort).1 a har
            omega
          · exact ⟨b, hbr, hbj⟩
        obtain ⟨r, hr, h1, h2⟩ := pairRanges_cover rest
          (List.sorted_cons.mp hsort).2 j hrest hb
        exact ⟨r, pairRanges_subset_cons c rest r hr, h1, h2⟩
      · obtain ⟨a, hamem, haj⟩ := haex
        have hac : a = c := by
          rcases List.mem_cons.mp hamem with rfl | har
          · rfl
          · exact absurd ⟨a, har, haj⟩ hrest
        subst hac
        obtain ⟨b, hbmem, hbj⟩ := hbex
        have hbrest : b ∈ rest := by
          rcases List.mem_cons.mp hbmem with rfl | hbr
          · omega
          · exact hbr
        cases rest with
        | nil => exact absurd hbrest (List.not_mem_nil b)
        | cons d t =>
            have hd : j ≤ d :=
              le_of_not_lt (fun hcon => hrest ⟨d, List.mem_cons_self d t, hcon⟩)
            refine ⟨(a + 1, d + 1), ?_, by omega, by omega⟩
            rw [pairRanges]
            exact List.mem_cons_self _ _

/-- C7: for a sequence of `numKeys ≥ 1` points and split/grouping-break
indexes drawn from `0 .. numKeys - 1`, the subgroup ranges returned by
`getGroupingIndexes` are non-empty half-open ranges that are contiguous
(each range ends exactly where the next begins), sorted and non-overlapping
(each range ends at or before every later range starts), and their union is
exactly the index interval `[0, numKeys)`. -/
theorem getGroupingIndexes_partition (splitIndexes groupingIndexes : List Int)
    (numKeys : Nat) (h1 : 1 ≤ numKeys)
    (hs : ∀ x ∈ splitIndexes, 0 ≤ x ∧ x < (numKeys : Int))
    (hg : ∀ x ∈ groupingIndexes, 0 ≤ x ∧ x < (numKeys : Int)) :
    (∀ r ∈ getGroupingIndexes splitIndexes groupingIndexes numKeys,
      r.1 < r.2) ∧
    List.Chain' (fun r s => r.2 = s.1)
      (getGroupingIndexes splitIndexes groupingIndexes numKeys) ∧
    List.Pairwise (fun r s => r.2 ≤ s.1)
      (getGroupingIndexes splitIndexes groupingIndexes numKeys) ∧
    (∀ j : Int, (0 ≤ j ∧ j < (numKeys : Int)) ↔
      ∃ r ∈ getGroupingIndexes splitIndexes groupingIndexes numKeys,
        r.1 ≤ j ∧ j < r.2) := by
  have hnum : (1 : Int) ≤ (numKeys : Int) := by exact_mod_cast h1
  set L := splitIndexes ++ [-1] ++ groupingIndexes ++ [(numKeys : Int) - 1]
    with hL
  set S := List.insertionSort (fun a b => a ≤ b) (jsDedup L) with hS
  have hmem : ∀ x : Int, x ∈ S ↔ x ∈ L := fun x => sortedBoundaries_mem L x
  have hsorted : List.Sorted (· < ·) S := sortedBoundaries_sorted L
  have hbounds : ∀ x ∈ S, -1 ≤ x ∧ x ≤ (numKeys : Int) - 1 := by
    intro x hx
    have hxL : x ∈ L := (hmem x).mp hx
    rw [hL] at hxL
    simp only [List.append_assoc, List.mem_append, List.mem_singleton] at hxL
    rcases hxL with hsp | hm1 | hgp | hlast
    · have := hs x hsp
      omega
    · omega
    · have := hg x hgp
      omega
    · omega
  have hneg1 : (-1 : Int) ∈ S := by
    rw [hmem, hL]
    simp
  have hlast : ((numKeys : Int) - 1) ∈ S := by
    rw [hmem, hL]
    simp
  have hranges : getGroupingIndexes splitIndexes groupingIndexes numKeys =
      pairRanges S := rfl
  rw [hranges]
  refine ⟨pairRanges_pos S hsorted, pairRanges_chain S,
    pairRanges_pairwise S hsorted, ?_⟩
  intro j
  constructor
  · intro ⟨hj0, hjn⟩
    exact pairRanges_cover S hsorted j ⟨-1, hneg1, by omega⟩
      ⟨(numKeys : Int) - 1, hlast, by omega⟩
  · intro ⟨r, hr, h1r, h2r⟩
    obtain ⟨x, hx, y, hy, hrxy⟩ := pairRanges_mem S r hr
    have hbx := hbounds x hx
    have hby := hbounds y hy
    subst hrxy
    simp only at h1r h2r
    omega

/-- C7, witness: the partition property applied to a four-point sequence
with a split at index 1 and a grouping break at index 2. -/
theorem getGroupingIndexes_partition_witness :
    (1 ≤ 4 ∧ (∀ x ∈ ([1] : List Int), 0 ≤ x ∧ x < (4 : Int)) ∧
      (∀ x ∈ ([2] : List Int), 0 ≤ x ∧ x < (4 : Int))) ∧
    (∀ r ∈ getGroupingIndexes [1] [2] 4, r.1 < r.2) :=
  ⟨⟨by decide, by decide, by decide⟩,
    (getGroupingIndexes_partition [1] [2] 4 (by decide) (by decide)
      (by decide)).1⟩
